import Mathlib

/-!
Verification development for the dynamic-highlights editor extension.

The development shallowly embeds the two highlighting pipelines of the
repository:

* the Selection Scanner (`selection-match` view plugin): given the current
  selection or the word around the caret, it searches the visible ranges
  case-insensitively and classifies each occurrence as `cm-current-…` /
  `cm-matched-…`;
* the Static Scanner (`highlighters/static.ts`): given user-defined pattern
  rules it emits four region sets (line / group / token / widget), skipping
  matches inside excluded syntax regions, sharing renderable templates via a
  bounded decoration cache;
* the Update Scheduler's adaptive-delay computation.

Documents are lists of characters, offsets are natural numbers.  Host-editor
collaborators (search cursors, word classifier, syntax classifier) are
modelled as explicit parameters or executable functions, as described in the
doc comment of every such definition.
-/

set_option maxRecDepth 4096

/-! ### Document primitives -/

/-- Model of `state.sliceDoc(a, b)`: the characters of the document between
offsets `a` (inclusive) and `b` (exclusive). -/
def sliceDoc (doc : List Char) (a b : Nat) : List Char :=
  (doc.drop a).take (b - a)

/-- Model of JavaScript `String.prototype.trim` on the left side. -/
def trimLeft (l : List Char) : List Char :=
  l.dropWhile Char.isWhitespace

/-- Model of JavaScript `String.prototype.trim`: drop whitespace from both
ends. -/
def trimChars (l : List Char) : List Char :=
  ((trimLeft l).reverse.dropWhile Char.isWhitespace).reverse

/-- Case folding used by the selection scanner: the code passes
`(s) => s.toLowerCase()` to the search cursor. -/
def foldCase (l : List Char) : List Char :=
  l.map Char.toLower

/-! ### Selection scanner configuration (`SelectionHighlightOptions`) -/

/-- The selection-highlight configuration record, translated from the
`SelectionHighlightOptions` type of the source. -/
structure SelectionHighlightOptions where
  highlightWordAroundCursor : Bool
  highlightSelectedText : Bool
  minSelectionLength : Nat
  maxMatches : Nat
  ignoredWords : String
  highlightDelay : Nat
deriving Repr

/-- Model of JavaScript `String.prototype.split` with a one-character
separator (`"".split(sep)` yields `[""]`). -/
def splitOnChar (sep : Char) : List Char → List (List Char)
  | [] => [[]]
  | c :: cs =>
    if c == sep then [] :: splitOnChar sep cs
    else
      match splitOnChar sep cs with
      | [] => [[c]]
      | w :: ws => (c :: w) :: ws

/-- The ignored-words set: the source computes
`new Set(conf.ignoredWords.split(",").map(w => w.toLowerCase().trim()))`. -/
def ignoredSet (s : String) : List (List Char) :=
  (splitOnChar ',' s.toList).map (fun w => trimChars (w.map Char.toLower))

/-! ### Selection state -/

/-- One selection range of the host editor (external collaborator): the code
reads `range.from`, `range.to` and `range.head`.  `from` is a Lean keyword,
hence the field names `fromPos` / `toPos`. -/
structure SelRange where
  fromPos : Nat
  toPos : Nat
  head : Nat
deriving DecidableEq, Repr

/-- Model of `range.empty`: a range is empty when its endpoints agree. -/
def SelRange.empty (r : SelRange) : Bool :=
  r.fromPos == r.toPos

/-- The host editor selection: a list of ranges plus the main range, the two
pieces of `state.selection` the scanner reads. -/
structure EditorSelection where
  ranges : List SelRange
  main : SelRange
deriving DecidableEq, Repr

/-! ### Host word classifier.

`state.charCategorizer` and `state.wordAt` are host-editor collaborators; the
scanner only asks whether a one-character slice has category `Word`, so the
categorizer is modelled as a boolean predicate on characters. -/

/-- Modelled from the spec: the host `wordAt` word-boundary resolution — the
start of the maximal word-category run ending at the given position. -/
def wordStart (cat : Char → Bool) (doc : List Char) : Nat → Nat
  | 0 => 0
  | i + 1 => if cat (doc.getD i ' ') then wordStart cat doc i else i + 1

/-- Modelled from the spec: the length of the maximal word-category run at
the head of a character list. -/
def wordRun (cat : Char → Bool) : List Char → Nat
  | [] => 0
  | c :: cs => if cat c then wordRun cat cs + 1 else 0

/-- Modelled from the spec: the host `state.wordAt(pos)` — the span of the
word-category run around `pos`, or `none` when `pos` touches no word
character. -/
def wordAt (cat : Char → Bool) (doc : List Char) (pos : Nat) : Option (Nat × Nat) :=
  let a := wordStart cat doc pos
  let b := pos + wordRun cat (doc.drop pos)
  if a == b then none else some (a, b)

/-! ### Search.

The literal search cursor is an external collaborator (spec §6: "a
literal-substring search cursor … consumable as a lazy sequence of match
spans over a bounded range").  The selection scanner instantiates it with the
normalizer `(s) => s.toLowerCase()`. -/

/-- Whether the document matches `query` case-insensitively at offset `i`. -/
def matchesAt (doc query : List Char) (i : Nat) : Bool :=
  foldCase (sliceDoc doc i (i + query.length)) == foldCase query

/-- Modelled from the spec: the sequence of spans produced by the host search
cursor over `[a, b)` with the `toLowerCase` normalizer — every offset whose
slice equals the query up to case folding, in ascending order. -/
def searchRange (doc query : List Char) (a b : Nat) : List (Nat × Nat) :=
  ((List.range (b + 1)).filter
      (fun i => decide (a ≤ i) && decide (i + query.length ≤ b) && matchesAt doc query i)).map
    (fun i => (i, i + query.length))

/-- All spans produced over the visible ranges, in range order (the
`for part of view.visibleRanges` loop). -/
def searchAll (doc query : List Char) (visible : List (Nat × Nat)) : List (Nat × Nat) :=
  visible.foldr (fun p acc => searchRange doc query p.1 p.2 ++ acc) []

/-! ### Occurrence acceptance and classification (source lines 162–181) -/

/-- The acceptance test of the scanner:
`!check || ((from == 0 || check(doc[from-1]) != Word) && (to == doc.length ||
check(doc[to]) != Word))`. -/
def acceptOcc (check : Option (Char → Bool)) (doc : List Char) (o : Nat × Nat) : Bool :=
  match check with
  | none => true
  | some cat =>
      (o.1 == 0 || !cat (doc.getD (o.1 - 1) ' ')) &&
      (o.2 == doc.length || !cat (doc.getD o.2 ' '))

/-- One emitted selection decoration: a mark with a class, the
`data-contents` attribute (the trimmed matched text) and its span. -/
structure Deco where
  cls : String
  contents : List Char
  dfrom : Nat
  dto : Nat
deriving DecidableEq, Repr

/-- Classification of an occurrence that already passed `acceptOcc`:
`cm-current-…` when `check && from <= range.from && to >= range.to`,
`cm-matched-…` when `from >= range.to || to <= range.from`, otherwise the
occurrence is dropped. -/
def classifyAccepted (check : Option (Char → Bool)) (doc : List Char) (range : SelRange)
    (matchType : String) (o : Nat × Nat) : Option Deco :=
  let string := trimChars (sliceDoc doc o.1 o.2)
  if check.isSome && decide (o.1 ≤ range.fromPos) && decide (range.toPos ≤ o.2) then
    some ⟨"cm-current-" ++ matchType, string, o.1, o.2⟩
  else if decide (range.toPos ≤ o.1) || decide (o.2 ≤ range.fromPos) then
    some ⟨"cm-matched-" ++ matchType, string, o.1, o.2⟩
  else
    none

/-- Acceptance and classification combined: the decoration (if any)
contributed by an occurrence. -/
def classifyOcc (check : Option (Char → Bool)) (doc : List Char) (range : SelRange)
    (matchType : String) (o : Nat × Nat) : Option Deco :=
  if acceptOcc check doc o then classifyAccepted check doc range matchType o else none

/-- The scanner's match loop: accumulate classified occurrences, returning
`none` (the early `return Decoration.none`) as soon as the accumulated
decoration count exceeds `maxMatches` after an accepted occurrence. -/
def emitLoop (check : Option (Char → Bool)) (doc : List Char) (range : SelRange)
    (matchType : String) (maxMatches : Nat) :
    List (Nat × Nat) → List Deco → Option (List Deco)
  | [], acc => some acc
  | o :: os, acc =>
    if acceptOcc check doc o then
      let acc' := acc ++ (classifyAccepted check doc range matchType o).toList
      if acc'.length > maxMatches then none
      else emitLoop check doc range matchType maxMatches os acc'
    else emitLoop check doc range matchType maxMatches os acc

/-- Tail of the scan once the query is fixed: search all visible ranges, run
the match loop, then apply the final minimum-count rule
`if (deco.length < (range.empty ? 2 : 1)) return Decoration.none`. -/
def finishScan (check : Option (Char → Bool)) (conf : SelectionHighlightOptions)
    (doc : List Char) (visible : List (Nat × Nat)) (range : SelRange)
    (matchType : String) (query : List Char) : List Deco :=
  match emitLoop check doc range matchType conf.maxMatches (searchAll doc query visible) [] with
  | none => []
  | some deco => if deco.length < (if range.empty then 2 else 1) then [] else deco

/-- The query/check/match-type computation of `getDeco` (source lines
132–155).  `none` models the early `return Decoration.none` exits.  Note that
this phase never reads `maxMatches`. -/
def selectionParams (cat : Char → Bool) (conf : SelectionHighlightOptions)
    (doc : List Char) (sel : EditorSelection) :
    Option (Option (Char → Bool) × String × List Char) :=
  if sel.ranges.length > 1 then none else
  let range := sel.main
  if range.empty then
    if !conf.highlightWordAroundCursor then none else
    match wordAt cat doc range.head with
    | none => none
    | some (wf, wt) =>
      let query := sliceDoc doc wf wt
      if (ignoredSet conf.ignoredWords).contains (query.map Char.toLower)
          || decide (query.length < conf.minSelectionLength) then none
      else some (some cat, "word", query)
  else
    if !conf.highlightSelectedText then none else
    let len := range.toPos - range.fromPos
    if decide (len < conf.minSelectionLength) || decide (len > 200) then none else
    let query := trimChars (sliceDoc doc range.fromPos range.toPos)
    if query.isEmpty then none else
    some (none, "string", query)

/-- The Selection Scanner's `getDeco`, translated from the source.  `cat` is
the host character categorizer at the caret (`state.charCategorizer`). -/
def selectionGetDeco (cat : Char → Bool) (conf : SelectionHighlightOptions)
    (doc : List Char) (visible : List (Nat × Nat)) (sel : EditorSelection) : List Deco :=
  match selectionParams cat conf doc sel with
  | none => []
  | some (check, matchType, query) =>
      finishScan check conf doc visible sel.main matchType query

/-! ### Update Scheduler (claim C9) -/

/-- Model of the adaptive-delay computation of `updateDebouncer`
(source lines 105–118): start from the configured base delay, raise it for
large documents, and add 100 for a large visible area. -/
def updateDebouncerDelay (baseDelay docSize visibleRangeSize : Nat) : Nat :=
  let adaptiveDelay := baseDelay
  let adaptiveDelay := if docSize > 50000 then max baseDelay 300 else adaptiveDelay
  let adaptiveDelay := if docSize > 100000 then max baseDelay 500 else adaptiveDelay
  if visibleRangeSize > 10000 then adaptiveDelay + 100 else adaptiveDelay

/-- Model of
`view.visibleRanges.reduce((sum, range) => sum + (range.to - range.from), 0)`. -/
def visibleRangeSize (visible : List (Nat × Nat)) : Nat :=
  visible.foldl (fun sum r => sum + (r.2 - r.1)) 0

/-- The flags of a `ViewUpdate` that the scheduler's `update` method
inspects. -/
structure ViewUpdateFlags where
  docChanged : Bool
  viewportChanged : Bool
  selectionSet : Bool
  hasInputTypeEvent : Bool
deriving DecidableEq, Repr

/-- Model of `update.docChanged && update.transactions.some(tr => tr.isUserEvent(...))` with the user-event kind `input.type`. -/
def isTyping (u : ViewUpdateFlags) : Bool :=
  u.docChanged && u.hasInputTypeEvent

/-- Model of `update.viewportChanged && !update.docChanged && !update.selectionSet`. -/
def isScrolling (u : ViewUpdateFlags) : Bool :=
  u.viewportChanged && !u.docChanged && !u.selectionSet

/-- Model of the effective-delay computation of `update`
(source lines 77–79). -/
def effectiveDelay (highlightDelay : Nat) (u : ViewUpdateFlags) : Nat :=
  let e := highlightDelay
  let e := if isScrolling u then min highlightDelay 100 else e
  if isTyping u then max highlightDelay 200 else e

/-! ### Static Scanner (`highlighters/static.ts`) -/

/-- Model of `view.state.doc.lineAt(pos).from`: the offset of the start of
the line containing `pos` (host document collaborator). -/
def lineStart (doc : List Char) : Nat → Nat
  | 0 => 0
  | i + 1 => if doc.getD i ' ' == '\n' then i + 1 else lineStart doc i

/-- The excluded-region test of the static scanner: resolve the syntax node
at `linePos + 1`, read its token-class props, and look for `hmd-codeblock` or
`hmd-frontmatter` among the space-separated prop words.  `nodeProps` models
the host syntax classifier (`syntaxTree(state).resolveInner(linePos + 1)`
followed by `tokenClassNodeProp`). -/
def excludedAt (nodeProps : Nat → Option String) (linePos : Nat) : Bool :=
  (["hmd-codeblock", "hmd-frontmatter"].find? (fun token =>
    match nodeProps (linePos + 1) with
    | none => false
    | some props => (splitOnChar ' ' props.toList).contains token.toList)).isSome

/-- One pattern rule of the static highlighter (`SearchQuery` in the
settings): a literal or regex pattern, its CSS class (`class` is a Lean
keyword, hence `cls`), and the optional mark-mode list. -/
structure SQuery where
  query : String
  regex : Bool
  cls : String
  mark : Option (List String)
deriving DecidableEq, Repr

/-- Modelled from the spec: one span yielded by a host search cursor
(literal `SearchCursor` or the repository's `RegExpCursor`, which is not
part of the provided sources): the match offsets plus, for regex cursors,
the named capture groups with their recorded indices relative to the line
start (`none` models a group whose indices are absent, so that destructuring
it throws). -/
structure SMatch where
  mfrom : Nat
  mto : Nat
  groups : Option (List (String × Option (Nat × Nat)))
deriving DecidableEq, Repr

/-- A renderable decoration template, the value cached by the decoration
pool: its variant (`mark` / `line` / `widget`), class and attributes. -/
structure DecoTemplate where
  variant : String
  cls : String
  attrs : List (String × String)
deriving DecidableEq, Repr

/-- The decoration cache: insertion-ordered key/template pairs (a JavaScript
`Map`). -/
abbrev Cache := List (String × DecoTemplate)

/-- Model of the JSON serialization of the attribute object used in the
cache key (`JSON.stringify(attributes || {})`). -/
def jsonStringifyAttrs (attrs : List (String × String)) : String :=
  "\x7b" ++ String.intercalate ","
      (attrs.map (fun kv => "\"" ++ kv.1 ++ "\":\"" ++ kv.2 ++ "\"")) ++ "\x7d"

/-- The cache key: `` `${type}-${className}-${JSON.stringify(attributes || {})}` ``. -/
def mkKey (type className : String) (attrs : List (String × String)) : String :=
  type ++ "-" ++ className ++ "-" ++ jsonStringifyAttrs attrs

namespace DecorationPool

/-- Method `getDecoration` of the decoration pool: look the key up; on a miss, build the
template and append it (JavaScript `Map.set` appends new keys in insertion
order). -/
def getDecoration (cache : Cache) (type className : String)
    (attrs : List (String × String)) : Cache × DecoTemplate :=
  let key := mkKey type className attrs
  match cache.find? (fun e => e.1 == key) with
  | some e => (cache, e.2)
  | none =>
    let d : DecoTemplate := ⟨type, className, attrs⟩
    (cache ++ [(key, d)], d)

/-- Method `cleanup` of the decoration pool: when more than 100 entries are cached, keep
only the last 50 (`entries.slice(-50)`); otherwise do nothing. -/
def cleanup (cache : Cache) : Cache :=
  if cache.length > 100 then cache.drop (cache.length - 50) else cache

end DecorationPool

/-- One emitted static region: a span plus its decoration template. -/
structure DRange where
  dfrom : Nat
  dto : Nat
  deco : DecoTemplate
deriving DecidableEq, Repr

/-- The accumulator of one static scan pass: the three region lists built in
the match loop, the per-line class lists, and the decoration cache. -/
structure ScanState where
  tokenDecos : List DRange
  groupDecos : List DRange
  widgetDecos : List DRange
  lineClasses : List (Nat × List String)
  cache : Cache
deriving DecidableEq, Repr

/-- Model of `query.mark?.contains(s)`, which is falsy when `mark` is absent. -/
def markContains (mark : Option (List String)) (s : String) : Bool :=
  match mark with
  | none => false
  | some l => l.contains s

/-- Model of `if (!lineClasses[linePos]) lineClasses[linePos] = []` followed by `lineClasses[linePos].push(query.class)`. -/
def lineClassesAdd (lcs : List (Nat × List String)) (pos : Nat) (cls : String) :
    List (Nat × List String) :=
  if lcs.any (fun e => e.1 == pos) then
    lcs.map (fun e => if e.1 == pos then (e.1, e.2 ++ [cls]) else e)
  else lcs ++ [(pos, [cls])]

/-- The named-group loop of the static scanner (source lines 212–221): each
group with recorded indices emits a mark region named after the group,
offset from the line start; a group whose destructuring throws (`none`
indices) is skipped by the `try/catch`. -/
def processGroups (linePos : Nat) (gs : List (String × Option (Nat × Nat)))
    (st : ScanState) : ScanState :=
  gs.foldl (fun stG g =>
    match g.2 with
    | none => stG
    | some gspan =>
      let r := DecorationPool.getDecoration stG.cache "mark" g.1 []
      { stG with
          cache := r.1,
          groupDecos := stG.groupDecos ++ [⟨linePos + gspan.1, linePos + gspan.2, r.2⟩] }) st

/-- The group-mark dispatch of the static scanner: groups are read only from
regex cursors (`cursor instanceof RegExpCursor`). -/
def processMatchGroups (q : SQuery) (linePos : Nat) (m : SMatch) (st : ScanState) : ScanState :=
  if markContains q.mark "group" then
    match (if q.regex then m.groups else none) with
    | none => st
    | some gs => processGroups linePos gs st
  else st

/-- Processing of one match of one rule (source lines 182–223): compute the
trimmed text and the line start, drop the match entirely when its line start
is excluded, then dispatch on the rule's mark modes (line class, token mark,
start/end widgets, named groups), consulting the decoration cache for every
emitted template. -/
def processMatch (doc : List Char) (nodeProps : Nat → Option String) (q : SQuery)
    (st : ScanState) (m : SMatch) : ScanState :=
  let string := trimChars (sliceDoc doc m.mfrom m.mto)
  let linePos := lineStart doc m.mfrom
  if excludedAt nodeProps linePos then st
  else
    let st1 := if markContains q.mark "line" then
        { st with lineClasses := lineClassesAdd st.lineClasses linePos q.cls } else st
    let st2 := if q.mark.isNone || markContains q.mark "match" then
        let r := DecorationPool.getDecoration st1.cache "mark" q.cls
          [("data-contents", String.mk string)]
        { st1 with cache := r.1, tokenDecos := st1.tokenDecos ++ [⟨m.mfrom, m.mto, r.2⟩] }
      else st1
    let st3 := if markContains q.mark "start" || markContains q.mark "end" then
        let rs := DecorationPool.getDecoration st2.cache "widget" (q.cls ++ "-start") []
        let re := DecorationPool.getDecoration rs.1 "widget" (q.cls ++ "-end") []
        let stW := { st2 with cache := re.1 }
        let stW2 := if markContains q.mark "start" then
            { stW with widgetDecos := stW.widgetDecos ++ [⟨m.mfrom, m.mfrom, rs.2⟩] } else stW
        if markContains q.mark "end" then
          { stW2 with widgetDecos := stW2.widgetDecos ++ [⟨m.mto, m.mto, re.2⟩] } else stW2
      else st2
    processMatchGroups q linePos m st3

/-- Processing of one rule over one visible range: construct the cursor
(`oracle q from to`; `none` models a thrown constructor, caught and skipped)
and fold the matches.  The cursors themselves are host collaborators
(spec §6), modelled by the `oracle` parameter. -/
def processQuery (doc : List Char) (nodeProps : Nat → Option String)
    (oracle : SQuery → Nat → Nat → Option (List SMatch)) (part : Nat × Nat)
    (st : ScanState) (q : SQuery) : ScanState :=
  match oracle q part.1 part.2 with
  | none => st
  | some ms => ms.foldl (processMatch doc nodeProps q) st

/-- The nested `for part of view.visibleRanges / for query of queries`
loops of the static scanner. -/
def staticBuildState (doc : List Char) (nodeProps : Nat → Option String)
    (oracle : SQuery → Nat → Nat → Option (List SMatch))
    (queries : List SQuery) (visible : List (Nat × Nat)) (cache₀ : Cache) : ScanState :=
  visible.foldl (fun st part => queries.foldl (processQuery doc nodeProps oracle part) st)
    ⟨[], [], [], [], cache₀⟩

/-- Stable insertion into a key-sorted list (insert after strictly smaller
keys, before equal ones seen later). -/
def insertSorted {α : Type} (key : α → Nat) (x : α) : List α → List α
  | [] => [x]
  | y :: ys => if key x ≤ key y then x :: y :: ys else y :: insertSorted key x ys

/-- Model of the stable ascending sorts of the static scanner
(`.sort((a, b) => a.from - b.from)`, and the ascending numeric iteration
order of `Object.entries` over integer keys). -/
def sortOn {α : Type} (key : α → Nat) : List α → List α
  | [] => []
  | x :: xs => insertSorted key x (sortOn key xs)

/-- The `Object.entries(lineClasses)` loop (source lines 226–233): one line
decoration per line, its class the space-joined class list, the template
drawn from the decoration cache. -/
def processLineClasses (entries : List (Nat × List String)) (cache : Cache) :
    List DRange × Cache :=
  entries.foldl (fun acc e =>
    let r := DecorationPool.getDecoration acc.2 "line" (String.intercalate " " e.2) []
    (acc.1 ++ [⟨e.1, e.1, r.2⟩], r.1)) ([], cache)

/-- The four published region sets of one static scan pass plus the cache
it leaves behind. -/
structure StaticDecoSets where
  line : List DRange
  token : List DRange
  group : List DRange
  widget : List DRange
  cache : Cache
deriving DecidableEq, Repr

/-- The Static Scanner's `getDeco`, translated from the source: run the
match loops, build the line decorations from the accumulated line classes
(`Object.entries` iterates integer keys in ascending order), run the cache
cleanup (line 234), and publish the four region sets sorted ascending by
start offset. -/
def staticGetDeco (doc : List Char) (nodeProps : Nat → Option String)
    (oracle : SQuery → Nat → Nat → Option (List SMatch))
    (queries : List SQuery) (visible : List (Nat × Nat)) (cache₀ : Cache) : StaticDecoSets :=
  let st := staticBuildState doc nodeProps oracle queries visible cache₀
  let pl := processLineClasses (sortOn (fun e => e.1) st.lineClasses) st.cache
  { line := sortOn (fun r => r.dfrom) pl.1,
    token := sortOn (fun r => r.dfrom) st.tokenDecos,
    group := sortOn (fun r => r.dfrom) st.groupDecos,
    widget := sortOn (fun r => r.dfrom) st.widgetDecos,
    cache := DecorationPool.cleanup pl.2 }

/-- A 101-entry cache used to exercise the eviction branch. -/
def cacheDemo : Cache :=
  (List.range 101).map (fun i => (Nat.repr i, ⟨"mark", Nat.repr i, []⟩))

/-! ### Properties of the match loop -/

theorem classifyOcc_of_accept {check : Option (Char → Bool)} {doc : List Char}
    {range : SelRange} {mt : String} {o : Nat × Nat}
    (h : acceptOcc check doc o = true) :
    classifyOcc check doc range mt o = classifyAccepted check doc range mt o := by
  simp [classifyOcc, h]

theorem classifyOcc_of_not_accept {check : Option (Char → Bool)} {doc : List Char}
    {range : SelRange} {mt : String} {o : Nat × Nat}
    (h : acceptOcc check doc o = false) :
    classifyOcc check doc range mt o = none := by
  simp [classifyOcc, h]

theorem filterMap_classifyOcc_cons_of_accept {check : Option (Char → Bool)} {doc : List Char}
    {range : SelRange} {mt : String} {o : Nat × Nat} (os : List (Nat × Nat))
    (h : acceptOcc check doc o = true) :
    (o :: os).filterMap (classifyOcc check doc range mt)
      = (classifyAccepted check doc range mt o).toList
          ++ os.filterMap (classifyOcc check doc range mt) := by
  cases hco : classifyAccepted check doc range mt o <;>
    simp [List.filterMap_cons, classifyOcc_of_accept h, hco]

/-- When the classified-decoration count never exceeds the cap, the match
loop returns all classified occurrences appended to the accumulator. -/
theorem emitLoop_eq_some {check : Option (Char → Bool)} {doc : List Char}
    {range : SelRange} {mt : String} {maxM : Nat} :
    ∀ (occs : List (Nat × Nat)) (acc : List Deco),
      (acc ++ occs.filterMap (classifyOcc check doc range mt)).length ≤ maxM →
      emitLoop check doc range mt maxM occs acc
        = some (acc ++ occs.filterMap (classifyOcc check doc range mt)) := by
  intro occs
  induction occs with
  | nil => intro acc h; simp [emitLoop]
  | cons o os ih =>
    intro acc h
    by_cases hacc : acceptOcc check doc o = true
    · rw [filterMap_classifyOcc_cons_of_accept os hacc, ← List.append_assoc] at h ⊢
      have hlen : (acc ++ (classifyAccepted check doc range mt o).toList).length ≤ maxM := by
        simp only [List.length_append] at h ⊢
        omega
      simp only [emitLoop, hacc, if_true]
      rw [if_neg (by omega), ih _ h]
    · rw [Bool.not_eq_true] at hacc
      simp only [emitLoop, hacc, Bool.false_eq_true, if_false]
      rw [ih _ (by rwa [List.filterMap_cons, classifyOcc_of_not_accept hacc] at h)]
      rw [List.filterMap_cons, classifyOcc_of_not_accept hacc]

/-- When the classified-decoration count does exceed the cap, the match loop
aborts with `none` (the early `return Decoration.none`). -/
theorem emitLoop_eq_none {check : Option (Char → Bool)} {doc : List Char}
    {range : SelRange} {mt : String} {maxM : Nat} :
    ∀ (occs : List (Nat × Nat)) (acc : List Deco),
      acc.length ≤ maxM →
      maxM < (acc ++ occs.filterMap (classifyOcc check doc range mt)).length →
      emitLoop check doc range mt maxM occs acc = none := by
  intro occs
  induction occs with
  | nil =>
    intro acc h1 h2
    simp only [List.filterMap_nil, List.append_nil] at h2
    omega
  | cons o os ih =>
    intro acc h1 h2
    by_cases hacc : acceptOcc check doc o = true
    · rw [filterMap_classifyOcc_cons_of_accept os hacc, ← List.append_assoc] at h2
      simp only [emitLoop, hacc, if_true]
      by_cases hbig : (acc ++ (classifyAccepted check doc range mt o).toList).length > maxM
      · rw [if_pos hbig]
      · rw [if_neg hbig]
        exact ih _ (by omega) h2
    · rw [Bool.not_eq_true] at hacc
      simp only [emitLoop, hacc, Bool.false_eq_true, if_false]
      exact ih _ h1 (by rwa [List.filterMap_cons, classifyOcc_of_not_accept hacc] at h2)

/-- Closed form of the match loop started from the empty accumulator. -/
theorem emitLoop_spec (check : Option (Char → Bool)) (doc : List Char)
    (range : SelRange) (mt : String) (maxM : Nat) (occs : List (Nat × Nat)) :
    emitLoop check doc range mt maxM occs []
      = if (occs.filterMap (classifyOcc check doc range mt)).length ≤ maxM
        then some (occs.filterMap (classifyOcc check doc range mt))
        else none := by
  by_cases h : (occs.filterMap (classifyOcc check doc range mt)).length ≤ maxM
  · rw [if_pos h]
    have := @emitLoop_eq_some check doc range mt maxM occs [] (by simpa using h)
    simpa using this
  · rw [if_neg h]
    exact emitLoop_eq_none occs [] (by simp) (by simpa using Nat.lt_of_not_le h)

/-- Closed form of the scan tail. -/
theorem finishScan_eq (check : Option (Char → Bool)) (conf : SelectionHighlightOptions)
    (doc : List Char) (visible : List (Nat × Nat)) (range : SelRange)
    (mt : String) (query : List Char) :
    finishScan check conf doc visible range mt query
      = if ((searchAll doc query visible).filterMap
              (classifyOcc check doc range mt)).length ≤ conf.maxMatches
        then
          (if ((searchAll doc query visible).filterMap
                (classifyOcc check doc range mt)).length < (if range.empty then 2 else 1)
           then [] else (searchAll doc query visible).filterMap (classifyOcc check doc range mt))
        else [] := by
  unfold finishScan
  rw [emitLoop_spec]
  by_cases h : ((searchAll doc query visible).filterMap
      (classifyOcc check doc range mt)).length ≤ conf.maxMatches
  · rw [if_pos h, if_pos h]
  · rw [if_neg h, if_neg h]

/-- For an empty (caret) selection range, classification is total: every
occurrence is either the current one or lies entirely on one side of the
caret. -/
theorem classifyAccepted_isSome_of_empty {cat : Char → Bool} {doc : List Char}
    {range : SelRange} {mt : String} (o : Nat × Nat)
    (hr : range.fromPos = range.toPos) :
    (classifyAccepted (some cat) doc range mt o).isSome = true := by
  unfold classifyAccepted
  split_ifs with h1 h2
  · rfl
  · rfl
  · exfalso
    simp only [Option.isSome_some, Bool.true_and, Bool.and_eq_true, decide_eq_true_eq] at h1
    simp only [Bool.or_eq_true, decide_eq_true_eq] at h2
    omega

/-- In word mode (empty selection range) the emitted-decoration count equals
the accepted-occurrence count. -/
theorem length_filterMap_classifyOcc_of_empty {cat : Char → Bool} {doc : List Char}
    {range : SelRange} {mt : String}
    (hr : range.fromPos = range.toPos) (occs : List (Nat × Nat)) :
    (occs.filterMap (classifyOcc (some cat) doc range mt)).length
      = (occs.filter (acceptOcc (some cat) doc)).length := by
  induction occs with
  | nil => simp
  | cons o os ih =>
    by_cases hacc : acceptOcc (some cat) doc o = true
    · have hs := @classifyAccepted_isSome_of_empty cat doc range mt o hr
      cases hco : classifyAccepted (some cat) doc range mt o with
      | none => rw [hco] at hs; simp at hs
      | some d =>
        rw [filterMap_classifyOcc_cons_of_accept os hacc, hco]
        simp [List.filter_cons, hacc, ih]
    · rw [Bool.not_eq_true] at hacc
      rw [List.filterMap_cons, classifyOcc_of_not_accept hacc]
      simp [List.filter_cons, hacc, ih]

/-- Raising the cap preserves a non-empty scan-tail result. -/
theorem finishScan_mono {check : Option (Char → Bool)} {conf : SelectionHighlightOptions}
    {doc : List Char} {visible : List (Nat × Nat)} {range : SelRange}
    {mt : String} {query : List Char} {m' : Nat}
    (hm : conf.maxMatches ≤ m')
    (hne : finishScan check conf doc visible range mt query ≠ []) :
    finishScan check { conf with maxMatches := m' } doc visible range mt query
      = finishScan check conf doc visible range mt query := by
  rw [finishScan_eq] at hne ⊢
  rw [finishScan_eq]
  by_cases h : ((searchAll doc query visible).filterMap
      (classifyOcc check doc range mt)).length ≤ conf.maxMatches
  · rw [if_pos h] at hne ⊢
    rw [if_pos (le_trans h hm)]
  · rw [if_neg h] at hne
    exact absurd rfl hne

/-! ### Properties of the stable sort -/

theorem mem_insertSorted {α : Type} (key : α → Nat) (x : α) :
    ∀ (l : List α) (a : α), a ∈ insertSorted key x l ↔ a = x ∨ a ∈ l := by
  intro l
  induction l with
  | nil => intro a; simp [insertSorted]
  | cons y ys ih =>
    intro a
    unfold insertSorted
    by_cases h : key x ≤ key y
    · simp [h]
    · simp only [h, if_false, List.mem_cons, ih]
      tauto

theorem pairwise_insertSorted {α : Type} (key : α → Nat) (x : α) :
    ∀ l : List α, l.Pairwise (fun a b => key a ≤ key b) →
      (insertSorted key x l).Pairwise (fun a b => key a ≤ key b) := by
  intro l
  induction l with
  | nil => intro _; simp [insertSorted]
  | cons y ys ih =>
    intro h
    rw [List.pairwise_cons] at h
    obtain ⟨hy, hys⟩ := h
    unfold insertSorted
    by_cases hxy : key x ≤ key y
    · rw [if_pos hxy]
      refine List.Pairwise.cons ?_ (List.Pairwise.cons hy hys)
      intro a ha
      rcases List.mem_cons.mp ha with rfl | ha2
      · exact hxy
      · exact le_trans hxy (hy a ha2)
    · rw [if_neg hxy]
      refine List.Pairwise.cons ?_ (ih hys)
      intro a ha
      rcases (mem_insertSorted key x ys a).mp ha with rfl | ha2
      · omega
      · exact hy a ha2

theorem pairwise_sortOn {α : Type} (key : α → Nat) :
    ∀ l : List α, (sortOn key l).Pairwise (fun a b => key a ≤ key b) := by
  intro l
  induction l with
  | nil => simp [sortOn]
  | cons x xs ih => exact pairwise_insertSorted key x _ ih

theorem sortOn_of_pairwise {α : Type} (key : α → Nat) :
    ∀ l : List α, l.Pairwise (fun a b => key a ≤ key b) → sortOn key l = l := by
  intro l
  induction l with
  | nil => intro _; rfl
  | cons x xs ih =>
    intro h
    rw [List.pairwise_cons] at h
    obtain ⟨hx, hxs⟩ := h
    rw [sortOn, ih hxs]
    cases xs with
    | nil => rfl
    | cons y ys =>
      unfold insertSorted
      rw [if_pos (hx y (by simp))]

/-! ### Fold helpers for the static scanner -/

theorem foldl_congr_fun {α β : Type} {f g : β → α → β} (h : ∀ st x, f st x = g st x) :
    ∀ (l : List α) (st : β), l.foldl f st = l.foldl g st := by
  intro l
  induction l with
  | nil => intro st; rfl
  | cons x xs ih => intro st; rw [List.foldl_cons, List.foldl_cons, h, ih]

theorem foldl_eq_foldl_filter {α β : Type} (f : β → α → β) (p : α → Bool)
    (hid : ∀ st x, p x = false → f st x = st) :
    ∀ (l : List α) (st : β), (l.filter p).foldl f st = l.foldl f st := by
  intro l
  induction l with
  | nil => intro st; rfl
  | cons x xs ih =>
    intro st
    by_cases hx : p x = true
    · rw [List.filter_cons_of_pos hx, List.foldl_cons, List.foldl_cons, ih]
    · rw [Bool.not_eq_true] at hx
      rw [List.filter_cons_of_neg (by simp [hx]), List.foldl_cons, hid st x hx, ih]

/-! ### Claim C1 -/

/-- C1 counterexample.  String mode: document `"abab"`, selection `[0, 2)`
(the first `"ab"`), viewport `[0, 4)`.  The occurrence `(0, 2)` is found by
the search and accepted (string mode accepts everything), and its span fully
contains the selection span `[0, 2)`; yet the scanner output is exactly one
`cm-matched-string` decoration at `(2, 4)` — the containing occurrence is
dropped rather than emitted with class `cm-current-string`, because the
`cm-current` branch additionally requires `check` to be non-null, which holds
only in word mode.  This refutes the claim as stated for string mode. -/
theorem string_mode_containing_occurrence_not_current :
    (0, 2) ∈ searchAll ("abab".toList) ("ab".toList) [(0, 4)]
    ∧ acceptOcc none ("abab".toList) (0, 2) = true
    ∧ selectionGetDeco Char.isAlpha ⟨true, true, 2, 100, "", 0⟩ ("abab".toList) [(0, 4)]
        ⟨[⟨0, 2, 2⟩], ⟨0, 2, 2⟩⟩
      = [⟨"cm-matched-string", "ab".toList, 2, 4⟩] := by decide

/-- C1 (amended).  When the match loop completes (no cap abort), the output
is exactly the classified occurrences, and each accepted occurrence is
classified as follows: it gets `cm-current-{kind}` when `check` is non-null
(word mode) and its span contains the selection/caret range; otherwise it
gets `cm-matched-{kind}` when its span does not overlap the selection/caret
range, and is dropped when it partially overlaps.  In string mode
(`check = none`) the current class is never used: even an occurrence fully
containing the selection span is dropped. -/
theorem selection_occurrence_classification
    (check : Option (Char → Bool)) (doc : List Char) (range : SelRange) (mt : String)
    (maxM : Nat) (occs : List (Nat × Nat)) (deco : List Deco)
    (h : emitLoop check doc range mt maxM occs [] = some deco) :
    deco = occs.filterMap (classifyOcc check doc range mt)
    ∧ ∀ o ∈ occs, acceptOcc check doc o = true →
        (check.isSome = true → o.1 ≤ range.fromPos → range.toPos ≤ o.2 →
          classifyOcc check doc range mt o
            = some ⟨"cm-current-" ++ mt, trimChars (sliceDoc doc o.1 o.2), o.1, o.2⟩)
        ∧ (¬(check.isSome = true ∧ o.1 ≤ range.fromPos ∧ range.toPos ≤ o.2) →
            range.toPos ≤ o.1 ∨ o.2 ≤ range.fromPos →
            classifyOcc check doc range mt o
              = some ⟨"cm-matched-" ++ mt, trimChars (sliceDoc doc o.1 o.2), o.1, o.2⟩)
        ∧ (¬(check.isSome = true ∧ o.1 ≤ range.fromPos ∧ range.toPos ≤ o.2) →
            ¬(range.toPos ≤ o.1 ∨ o.2 ≤ range.fromPos) →
            classifyOcc check doc range mt o = none) := by
  constructor
  · rw [emitLoop_spec] at h
    by_cases hc : (occs.filterMap (classifyOcc check doc range mt)).length ≤ maxM
    · rw [if_pos hc] at h
      exact (Option.some.inj h).symm
    · rw [if_neg hc] at h
      exact absurd h (by simp)
  · intro o ho hacc
    have hcl := @classifyOcc_of_accept check doc range mt o hacc
    refine ⟨?_, ?_, ?_⟩
    · intro h4 h5 h6
      rw [hcl]
      unfold classifyAccepted
      rw [if_pos (by simp [h4, h5, h6])]
    · intro hnc hd
      rw [hcl]
      unfold classifyAccepted
      have hc1 : ¬((check.isSome && decide (o.1 ≤ range.fromPos)
          && decide (range.toPos ≤ o.2)) = true) := by
        simp only [Bool.and_eq_true, decide_eq_true_eq]
        intro hcond
        exact hnc ⟨hcond.1.1, hcond.1.2, hcond.2⟩
      have hc2 : (decide (range.toPos ≤ o.1) || decide (o.2 ≤ range.fromPos)) = true := by
        rcases hd with hx | hx <;> simp [hx]
      rw [if_neg hc1, if_pos hc2]
    · intro hnc hnd
      rw [hcl]
      unfold classifyAccepted
      have hc1 : ¬((check.isSome && decide (o.1 ≤ range.fromPos)
          && decide (range.toPos ≤ o.2)) = true) := by
        simp only [Bool.and_eq_true, decide_eq_true_eq]
        intro hcond
        exact hnc ⟨hcond.1.1, hcond.1.2, hcond.2⟩
      have hc2 : ¬((decide (range.toPos ≤ o.1) || decide (o.2 ≤ range.fromPos)) = true) := by
        simp only [Bool.or_eq_true, decide_eq_true_eq]
        exact hnd
      rw [if_neg hc1, if_neg hc2]

/-- C1 witness: the amended theorem applied to the `"abab"` string-mode
scenario. -/
theorem selection_occurrence_classification_witness :
    ([⟨"cm-matched-string", "ab".toList, 2, 4⟩] : List Deco)
      = (searchAll ("abab".toList) ("ab".toList) [(0, 4)]).filterMap
          (classifyOcc none ("abab".toList) ⟨0, 2, 2⟩ "string") :=
  (selection_occurrence_classification none ("abab".toList) ⟨0, 2, 2⟩ "string" 100
    (searchAll ("abab".toList) ("ab".toList) [(0, 4)])
    [⟨"cm-matched-string", "ab".toList, 2, 4⟩] (by decide)).1

/-! ### Claim C3 -/

/-- C3.  First conjunct: the scan tail returns the empty set whenever the
classified-occurrence count exceeds `maxMatches` (however many matches were
found before the cap).  Second conjunct: the result is monotonic in the cap —
raising `maxMatches`, all else equal, never turns a non-empty result into a
different (in particular an empty) one. -/
theorem selection_max_matches_cap_and_monotone :
    (∀ (check : Option (Char → Bool)) (conf : SelectionHighlightOptions)
       (doc : List Char) (visible : List (Nat × Nat)) (range : SelRange)
       (mt : String) (query : List Char),
        conf.maxMatches
            < ((searchAll doc query visible).filterMap (classifyOcc check doc range mt)).length →
        finishScan check conf doc visible range mt query = [])
    ∧ (∀ (cat : Char → Bool) (conf : SelectionHighlightOptions) (doc : List Char)
         (visible : List (Nat × Nat)) (sel : EditorSelection) (m' : Nat),
        conf.maxMatches ≤ m' →
        selectionGetDeco cat conf doc visible sel ≠ [] →
        selectionGetDeco cat { conf with maxMatches := m' } doc visible sel
          = selectionGetDeco cat conf doc visible sel) := by
  constructor
  · intro check conf doc visible range mt query h
    rw [finishScan_eq, if_neg (by omega)]
  · intro cat conf doc visible sel m' hm hne
    have hp : selectionParams cat { conf with maxMatches := m' } doc sel
        = selectionParams cat conf doc sel := rfl
    unfold selectionGetDeco at hne ⊢
    rw [hp]
    cases hq : selectionParams cat conf doc sel with
    | none => rfl
    | some t =>
      obtain ⟨check, mt, query⟩ := t
      rw [hq] at hne
      exact finishScan_mono hm hne

/-- C3 witness: the cap conjunct at a string scenario whose classified count
(1) exceeds `maxMatches = 0`, and the monotonicity conjunct raising the cap
from 2 to 50 on a non-empty word-mode result. -/
theorem selection_max_matches_cap_and_monotone_witness :
    finishScan none ⟨true, true, 2, 0, "", 0⟩ ("abab".toList) [(0, 4)]
        ⟨0, 2, 2⟩ "string" ("ab".toList) = []
    ∧ selectionGetDeco Char.isAlpha ⟨true, true, 3, 50, "", 0⟩ ("cat cat".toList) [(0, 7)]
        ⟨[⟨1, 1, 1⟩], ⟨1, 1, 1⟩⟩
      = selectionGetDeco Char.isAlpha ⟨true, true, 3, 2, "", 0⟩ ("cat cat".toList) [(0, 7)]
        ⟨[⟨1, 1, 1⟩], ⟨1, 1, 1⟩⟩ :=
  ⟨selection_max_matches_cap_and_monotone.1 none ⟨true, true, 2, 0, "", 0⟩
      ("abab".toList) [(0, 4)] ⟨0, 2, 2⟩ "string" ("ab".toList) (by decide),
   selection_max_matches_cap_and_monotone.2 Char.isAlpha ⟨true, true, 3, 2, "", 0⟩
      ("cat cat".toList) [(0, 7)] ⟨[⟨1, 1, 1⟩], ⟨1, 1, 1⟩⟩ 50 (by decide) (by decide)⟩

/-! ### Claim C4 -/

/-- C4 counterexample.  Word mode with `maxMatches = 1`: document
`"cat cat cat"`, caret at offset 1 inside the word `"cat"`
(length 3 = `minSelectionLength`, not ignored).  `"cat"` occurs three times
(≥ 2 accepted whole-word occurrences) in the viewport, yet the result is
empty — the cap aborts the scan — refuting the claim's unconditional
"at least 2 regions when W occurs at least twice". -/
theorem selection_two_occurrence_claim_fails_at_cap :
    wordAt Char.isAlpha ("cat cat cat".toList) 1 = some (0, 3)
    ∧ ((searchAll ("cat cat cat".toList) ("cat".toList) [(0, 11)]).filter
        (acceptOcc (some Char.isAlpha) ("cat cat cat".toList))).length = 3
    ∧ selectionGetDeco Char.isAlpha ⟨true, true, 3, 1, "", 0⟩ ("cat cat cat".toList)
        [(0, 11)] ⟨[⟨1, 1, 1⟩], ⟨1, 1, 1⟩⟩ = [] := by decide

/-- C4 (amended).  First conjunct: the scanner discards everything when the
emitted-region count is below the mode's minimum threshold — 2 for word mode,
1 for string mode.  Second conjunct: for a caret inside a word W of length at
least `minSelectionLength` not in the ignore list, with n the number of
accepted whole-word occurrences of W in the viewport: when `2 ≤ n` and n does
not exceed `maxMatches`, the result has exactly n ≥ 2 regions; when W occurs
exactly once the result is empty. -/
theorem selection_min_region_threshold :
    (∀ (check : Option (Char → Bool)) (conf : SelectionHighlightOptions) (doc : List Char)
       (visible : List (Nat × Nat)) (range : SelRange) (mt : String) (query : List Char)
       (deco : List Deco),
        emitLoop check doc range mt conf.maxMatches (searchAll doc query visible) [] = some deco →
        deco.length < (if range.empty then 2 else 1) →
        finishScan check conf doc visible range mt query = [])
    ∧ (∀ (cat : Char → Bool) (conf : SelectionHighlightOptions) (doc : List Char)
         (visible : List (Nat × Nat)) (sel : EditorSelection) (wf wt n : Nat),
        sel.ranges.length ≤ 1 →
        sel.main.empty = true →
        conf.highlightWordAroundCursor = true →
        wordAt cat doc sel.main.head = some (wf, wt) →
        (ignoredSet conf.ignoredWords).contains ((sliceDoc doc wf wt).map Char.toLower) = false →
        conf.minSelectionLength ≤ (sliceDoc doc wf wt).length →
        n = ((searchAll doc (sliceDoc doc wf wt) visible).filter
              (acceptOcc (some cat) doc)).length →
        (2 ≤ n → n ≤ conf.maxMatches →
            (selectionGetDeco cat conf doc visible sel).length = n)
        ∧ (n = 1 → selectionGetDeco cat conf doc visible sel = [])) := by
  constructor
  · intro check conf doc visible range mt query deco hloop hthresh
    unfold finishScan
    rw [hloop]
    exact if_pos hthresh
  · intro cat conf doc visible sel wf wt n hlen hempty hWAC hword hig hmin hn
    have h1 : ¬(sel.ranges.length > 1) := by omega
    have hr : sel.main.fromPos = sel.main.toPos := by
      simpa [SelRange.empty] using hempty
    have hig2 : (List.map Char.toLower (sliceDoc doc wf wt)) ∉ ignoredSet conf.ignoredWords := by
      simpa using hig
    have hparams : selectionParams cat conf doc sel
        = some (some cat, "word", sliceDoc doc wf wt) := by
      unfold selectionParams
      simp [h1, hempty, hWAC, hword, hig2, Nat.not_lt.mpr hmin]
    have hgd : selectionGetDeco cat conf doc visible sel
        = finishScan (some cat) conf doc visible sel.main "word" (sliceDoc doc wf wt) := by
      unfold selectionGetDeco
      rw [hparams]
    have hL : ((searchAll doc (sliceDoc doc wf wt) visible).filterMap
        (classifyOcc (some cat) doc sel.main "word")).length = n := by
      rw [hn]
      exact length_filterMap_classifyOcc_of_empty hr _
    constructor
    · intro h2n hnm
      rw [hgd, finishScan_eq, if_pos (by omega), if_neg (by rw [hL]; simp [hempty]; omega)]
      exact hL
    · intro hone
      rw [hgd, finishScan_eq]
      by_cases hcap : ((searchAll doc (sliceDoc doc wf wt) visible).filterMap
          (classifyOcc (some cat) doc sel.main "word")).length ≤ conf.maxMatches
      · rw [if_pos hcap, if_pos (by rw [hL]; simp [hempty]; omega)]
      · rw [if_neg hcap]

/-- C4 witness: the word-mode conjunct at `"cat cat"` with the caret in the
first word — two accepted occurrences, result of length 2. -/
theorem selection_min_region_threshold_witness :
    (selectionGetDeco Char.isAlpha ⟨true, true, 3, 100, "", 0⟩ ("cat cat".toList) [(0, 7)]
        ⟨[⟨1, 1, 1⟩], ⟨1, 1, 1⟩⟩).length = 2 :=
  ((selection_min_region_threshold.2 Char.isAlpha ⟨true, true, 3, 100, "", 0⟩
      ("cat cat".toList) [(0, 7)] ⟨[⟨1, 1, 1⟩], ⟨1, 1, 1⟩⟩ 0 3 2
      (by decide) (by decide) (by decide) (by decide) (by decide) (by decide)
      (by decide)).1 (by decide) (by decide))

/-! ### Claim C5 -/

/-- C5.  The viewport search is case-insensitive: a span is produced exactly
when its document slice equals the query up to case folding (first
conjunct).  A word-mode occurrence is accepted exactly when both of its
boundaries are non-word-category transitions (second conjunct), while in
string mode every occurrence is accepted (third conjunct). -/
theorem selection_search_case_insensitive_and_word_boundaries :
    (∀ (doc query : List Char) (a b : Nat) (o : Nat × Nat),
        o ∈ searchRange doc query a b ↔
          a ≤ o.1 ∧ o.2 = o.1 + query.length ∧ o.2 ≤ b ∧
            foldCase (sliceDoc doc o.1 o.2) = foldCase query)
    ∧ (∀ (cat : Char → Bool) (doc : List Char) (o : Nat × Nat),
        acceptOcc (some cat) doc o = true ↔
          ((o.1 = 0 ∨ cat (doc.getD (o.1 - 1) ' ') = false) ∧
           (o.2 = doc.length ∨ cat (doc.getD o.2 ' ') = false)))
    ∧ (∀ (doc : List Char) (o : Nat × Nat), acceptOcc none doc o = true) := by
  refine ⟨?_, ?_, ?_⟩
  · intro doc query a b o
    obtain ⟨o1, o2⟩ := o
    unfold searchRange
    simp only [List.mem_map, List.mem_filter, List.mem_range, Bool.and_eq_true,
      decide_eq_true_eq, matchesAt, beq_iff_eq, Prod.mk.injEq]
    constructor
    · rintro ⟨i, ⟨hib, ⟨hai, hlen⟩, hmatch⟩, rfl, rfl⟩
      exact ⟨hai, rfl, hlen, hmatch⟩
    · rintro ⟨hai, hlen2, hlb, hfold⟩
      refine ⟨o1, ⟨by omega, ⟨hai, by omega⟩, ?_⟩, rfl, by omega⟩
      have h2 : o1 + query.length = o2 := by omega
      rw [h2]
      exact hfold
  · intro cat doc o
    simp [acceptOcc, Bool.not_eq_true']
  · intro doc o
    rfl

/-! ### Claim C10 -/

/-- C10.  In word mode the document edges count as word boundaries: an
occurrence starting at offset 0 is accepted purely on its right-boundary
test (the `from == 0` disjunct short-circuits the preceding-character
check), and an occurrence ending at the document length is accepted purely
on its left-boundary test.  Consequently whole-word matches at the very
start and end of the document are emitted, as the concrete scan in the last
conjunct shows. -/
theorem word_mode_document_boundaries :
    (∀ (cat : Char → Bool) (doc : List Char) (t : Nat),
        acceptOcc (some cat) doc (0, t) = ((t == doc.length) || !cat (doc.getD t ' ')))
    ∧ (∀ (cat : Char → Bool) (doc : List Char) (f : Nat),
        acceptOcc (some cat) doc (f, doc.length) = ((f == 0) || !cat (doc.getD (f - 1) ' ')))
    ∧ selectionGetDeco Char.isAlpha ⟨true, true, 3, 100, "", 0⟩ ("cat x cat".toList) [(0, 9)]
        ⟨[⟨1, 1, 1⟩], ⟨1, 1, 1⟩⟩
      = [⟨"cm-current-word", "cat".toList, 0, 3⟩,
         ⟨"cm-matched-word", "cat".toList, 6, 9⟩] := by
  refine ⟨?_, ?_, by decide⟩
  · intro cat doc t
    simp [acceptOcc]
  · intro cat doc f
    simp [acceptOcc]

/-- C9.  The adaptive delay equals the configured baseline for small
documents and viewports; it is at least 300 above the 50000-character
threshold and at least 500 above the 100000-character threshold; a visible
range above 10000 characters adds exactly 100.  Typing-classified edits then
use `max(delay, 200)` — a floor of 200 — and pure-scroll viewport changes
use `min(delay, 100)` — a ceiling of 100 — whatever the computed baseline
was. -/
theorem adaptive_delay_policy :
    (∀ b d v, d ≤ 50000 → v ≤ 10000 → updateDebouncerDelay b d v = b)
    ∧ (∀ b d v, 50000 < d → 300 ≤ updateDebouncerDelay b d v)
    ∧ (∀ b d v, 100000 < d → 500 ≤ updateDebouncerDelay b d v)
    ∧ (∀ b d v, 10000 < v → updateDebouncerDelay b d v = updateDebouncerDelay b d 0 + 100)
    ∧ (∀ hd u, isTyping u = true →
        effectiveDelay hd u = max hd 200 ∧ 200 ≤ effectiveDelay hd u)
    ∧ (∀ hd u, isScrolling u = true →
        effectiveDelay hd u = min hd 100 ∧ effectiveDelay hd u ≤ 100) := by
  refine ⟨?_, ?_, ?_, ?_, ?_, ?_⟩
  · intro b d v hd hv
    unfold updateDebouncerDelay
    rw [if_neg (by omega), if_neg (by omega), if_neg (by omega)]
  · intro b d v hd
    have h3 : 300 ≤ max b 300 := Nat.le_max_right _ _
    have h5 : 500 ≤ max b 500 := Nat.le_max_right _ _
    unfold updateDebouncerDelay
    dsimp only
    split_ifs <;> omega
  · intro b d v hd
    have h3 : 300 ≤ max b 300 := Nat.le_max_right _ _
    have h5 : 500 ≤ max b 500 := Nat.le_max_right _ _
    unfold updateDebouncerDelay
    dsimp only
    split_ifs <;> omega
  · intro b d v hv
    unfold updateDebouncerDelay
    rw [if_pos hv, if_neg (show ¬((0 : Nat) > 10000) by omega)]
  · intro hd u ht
    unfold effectiveDelay
    rw [if_pos ht]
    exact ⟨rfl, Nat.le_max_right hd 200⟩
  · intro hd u hs
    have hnt : isTyping u = false := by
      unfold isTyping
      unfold isScrolling at hs
      simp only [Bool.and_eq_true, Bool.not_eq_true'] at hs
      simp [hs.1.2]
    unfold effectiveDelay
    dsimp only
    rw [if_neg (show ¬(isTyping u = true) by simp [hnt]), if_pos hs]
    exact ⟨rfl, Nat.min_le_right hd 100⟩

/-- C9 witness: the adaptive delay at a 60000-character document is at least
300; a typing edit with baseline 0 uses an effective delay of 200. -/
theorem adaptive_delay_policy_witness :
    300 ≤ updateDebouncerDelay 0 60000 0
    ∧ effectiveDelay 0 ⟨true, false, false, true⟩ = max 0 200
    ∧ updateDebouncerDelay 0 0 0 = 0 :=
  ⟨adaptive_delay_policy.2.1 0 60000 0 (by omega),
   (adaptive_delay_policy.2.2.2.2.1 0 ⟨true, false, false, true⟩ (by decide)).1,
   adaptive_delay_policy.1 0 0 0 (by omega) (by omega)⟩

/-! ### Claim C2 -/

theorem processMatch_excluded {doc : List Char} {np : Nat → Option String}
    {q : SQuery} {st : ScanState} {m : SMatch}
    (h : excludedAt np (lineStart doc m.mfrom) = true) :
    processMatch doc np q st m = st := by
  unfold processMatch
  dsimp only
  rw [if_pos h]

theorem processQuery_filterOracle (doc : List Char) (np : Nat → Option String)
    (oracle : SQuery → Nat → Nat → Option (List SMatch)) (part : Nat × Nat)
    (st : ScanState) (q : SQuery) :
    processQuery doc np
        (fun q2 a b => (oracle q2 a b).map
          (List.filter (fun m => !excludedAt np (lineStart doc m.mfrom)))) part st q
      = processQuery doc np oracle part st q := by
  unfold processQuery
  cases ho : oracle q part.1 part.2 with
  | none => simp only [ho, Option.map_none']
  | some ms =>
    simp only [ho, Option.map_some']
    exact foldl_eq_foldl_filter _ _
      (fun st2 m hm => processMatch_excluded (by simpa using hm)) ms st

theorem staticBuildState_filterOracle (doc : List Char) (np : Nat → Option String)
    (oracle : SQuery → Nat → Nat → Option (List SMatch))
    (queries : List SQuery) (visible : List (Nat × Nat)) (cache₀ : Cache) :
    staticBuildState doc np
        (fun q2 a b => (oracle q2 a b).map
          (List.filter (fun m => !excludedAt np (lineStart doc m.mfrom))))
        queries visible cache₀
      = staticBuildState doc np oracle queries visible cache₀ := by
  unfold staticBuildState
  exact foldl_congr_fun (fun st part =>
    foldl_congr_fun (fun st2 q2 => processQuery_filterOracle doc np oracle part st2 q2)
      queries st) visible _

/-- C2.  First conjunct: processing a match whose line start is classified
excluded leaves the scan state untouched — no token, line-class, group or
widget region and no cache entry comes from it.  Second conjunct: deleting
every excluded match from the cursor streams leaves the whole scan output
(all four region sets and the cache) unchanged. -/
theorem static_excluded_matches_emit_nothing
    (doc : List Char) (np : Nat → Option String)
    (oracle : SQuery → Nat → Nat → Option (List SMatch))
    (queries : List SQuery) (visible : List (Nat × Nat)) (cache₀ : Cache) :
    (∀ (q : SQuery) (st : ScanState) (m : SMatch),
        excludedAt np (lineStart doc m.mfrom) = true →
        processMatch doc np q st m = st)
    ∧ staticGetDeco doc np
        (fun q2 a b => (oracle q2 a b).map
          (List.filter (fun m => !excludedAt np (lineStart doc m.mfrom))))
        queries visible cache₀
      = staticGetDeco doc np oracle queries visible cache₀ := by
  constructor
  · intro q st m h
    exact processMatch_excluded h
  · unfold staticGetDeco
    rw [staticBuildState_filterOracle]

/-- C2 witness: a match on a line classified `hmd-codeblock` leaves the
empty scan state unchanged. -/
theorem static_excluded_matches_emit_nothing_witness :
    processMatch ("x".toList) (fun _ => some "hmd-codeblock")
        ⟨"x", false, "c", none⟩ ⟨[], [], [], [], []⟩ ⟨0, 1, none⟩
      = ⟨[], [], [], [], []⟩ :=
  (static_excluded_matches_emit_nothing ("x".toList) (fun _ => some "hmd-codeblock")
      (fun _ _ _ => none) [] [] []).1
    ⟨"x", false, "c", none⟩ ⟨[], [], [], [], []⟩ ⟨0, 1, none⟩ (by decide)

/-! ### Claim C6 -/

/-- C6.  After a static scan pass, each of the four published region sets is
sorted ascending by its start offset, and re-sorting any of them yields the
same sequence. -/
theorem static_region_sets_sorted_idempotent
    (doc : List Char) (np : Nat → Option String)
    (oracle : SQuery → Nat → Nat → Option (List SMatch))
    (queries : List SQuery) (visible : List (Nat × Nat)) (cache₀ : Cache) :
    ((staticGetDeco doc np oracle queries visible cache₀).line.Pairwise
        (fun a b => a.dfrom ≤ b.dfrom)
      ∧ (staticGetDeco doc np oracle queries visible cache₀).token.Pairwise
        (fun a b => a.dfrom ≤ b.dfrom)
      ∧ (staticGetDeco doc np oracle queries visible cache₀).group.Pairwise
        (fun a b => a.dfrom ≤ b.dfrom)
      ∧ (staticGetDeco doc np oracle queries visible cache₀).widget.Pairwise
        (fun a b => a.dfrom ≤ b.dfrom))
    ∧ (sortOn (fun r => r.dfrom) (staticGetDeco doc np oracle queries visible cache₀).line
        = (staticGetDeco doc np oracle queries visible cache₀).line
      ∧ sortOn (fun r => r.dfrom) (staticGetDeco doc np oracle queries visible cache₀).token
        = (staticGetDeco doc np oracle queries visible cache₀).token
      ∧ sortOn (fun r => r.dfrom) (staticGetDeco doc np oracle queries visible cache₀).group
        = (staticGetDeco doc np oracle queries visible cache₀).group
      ∧ sortOn (fun r => r.dfrom) (staticGetDeco doc np oracle queries visible cache₀).widget
        = (staticGetDeco doc np oracle queries visible cache₀).widget) := by
  refine ⟨⟨?_, ?_, ?_, ?_⟩, ?_, ?_, ?_, ?_⟩ <;>
    first
      | exact pairwise_sortOn _ _
      | exact sortOn_of_pairwise _ _ (pairwise_sortOn _ _)

/-! ### Claim C7 -/

/-- C7.  The decoration cache after a static scan pass is exactly the
cleanup of the cache accumulated during the pass (first conjunct: eviction
runs at the end of every pass).  Cleanup on a cache above 100 entries keeps
exactly the 50 most recently inserted ones (second conjunct), leaves a
smaller cache unchanged (third conjunct), and hence the published cache
never exceeds 100 entries (fourth conjunct). -/
theorem decoration_cache_eviction_bound :
    (∀ (doc : List Char) (np : Nat → Option String)
       (oracle : SQuery → Nat → Nat → Option (List SMatch))
       (queries : List SQuery) (visible : List (Nat × Nat)) (cache₀ : Cache),
        (staticGetDeco doc np oracle queries visible cache₀).cache
          = DecorationPool.cleanup
              (processLineClasses
                (sortOn (fun e => e.1)
                  (staticBuildState doc np oracle queries visible cache₀).lineClasses)
                (staticBuildState doc np oracle queries visible cache₀).cache).2)
    ∧ (∀ c : Cache, 100 < c.length →
        DecorationPool.cleanup c = c.drop (c.length - 50)
          ∧ (DecorationPool.cleanup c).length = 50)
    ∧ (∀ c : Cache, c.length ≤ 100 → DecorationPool.cleanup c = c)
    ∧ (∀ (doc : List Char) (np : Nat → Option String)
         (oracle : SQuery → Nat → Nat → Option (List SMatch))
         (queries : List SQuery) (visible : List (Nat × Nat)) (cache₀ : Cache),
        ((staticGetDeco doc np oracle queries visible cache₀).cache).length ≤ 100) := by
  have hlen : ∀ c : Cache, (DecorationPool.cleanup c).length ≤ 100 := by
    intro c
    unfold DecorationPool.cleanup
    split_ifs with h
    · rw [List.length_drop]; omega
    · omega
  refine ⟨?_, ?_, ?_, ?_⟩
  · intro doc np oracle queries visible cache₀
    rfl
  · intro c hc
    constructor
    · unfold DecorationPool.cleanup
      rw [if_pos (by omega)]
    · unfold DecorationPool.cleanup
      rw [if_pos (by omega), List.length_drop]
      omega
  · intro c hc
    unfold DecorationPool.cleanup
    rw [if_neg (by omega)]
  · intro doc np oracle queries visible cache₀
    exact hlen _

/-- C7 witness: cleanup of a 101-entry cache keeps exactly 50 entries;
cleanup of an empty cache is the identity. -/
theorem decoration_cache_eviction_bound_witness :
    (DecorationPool.cleanup cacheDemo).length = 50
    ∧ DecorationPool.cleanup ([] : Cache) = [] :=
  ⟨(decoration_cache_eviction_bound.2.1 cacheDemo (by simp [cacheDemo])).2,
   decoration_cache_eviction_bound.2.2.1 [] (by simp)⟩

/-! ### Claim C8 -/

theorem processQuery_none (doc : List Char) (np : Nat → Option String)
    (oracle : SQuery → Nat → Nat → Option (List SMatch)) (part : Nat × Nat)
    (st : ScanState) (q : SQuery) (h : oracle q part.1 part.2 = none) :
    processQuery doc np oracle part st q = st := by
  unfold processQuery
  rw [h]

theorem processMatchGroups_filterGroups (q : SQuery) (linePos : Nat) (m : SMatch)
    (st : ScanState) :
    processMatchGroups q linePos
        { m with groups := m.groups.map (List.filter (fun g => g.2.isSome)) } st
      = processMatchGroups q linePos m st := by
  unfold processMatchGroups
  by_cases hmk : markContains q.mark "group" = true
  · rw [if_pos hmk, if_pos hmk]
    by_cases hreg : q.regex = true
    · dsimp only
      rw [if_pos hreg, if_pos hreg]
      cases hg : m.groups with
      | none => rfl
      | some gs =>
        show processGroups linePos (gs.filter (fun g => g.2.isSome)) st
          = processGroups linePos gs st
        unfold processGroups
        refine foldl_eq_foldl_filter _ _ (fun stG g hg2 => ?_) gs st
        have hgn : g.2 = none := by
          cases hv : g.2 with
          | none => rfl
          | some v => rw [hv] at hg2; simp at hg2
        simp only [hgn]
    · dsimp only
      rw [if_neg hreg, if_neg hreg]
  · rw [if_neg hmk, if_neg hmk]

theorem processMatch_filterGroups (doc : List Char) (np : Nat → Option String)
    (q : SQuery) (st : ScanState) (m : SMatch) :
    processMatch doc np q st
        { m with groups := m.groups.map (List.filter (fun g => g.2.isSome)) }
      = processMatch doc np q st m := by
  unfold processMatch
  dsimp only
  by_cases hex : excludedAt np (lineStart doc m.mfrom) = true
  · rw [if_pos hex, if_pos hex]
  · rw [if_neg hex, if_neg hex]
    exact processMatchGroups_filterGroups q _ m _

theorem processQuery_filterGroupsOracle (doc : List Char) (np : Nat → Option String)
    (oracle : SQuery → Nat → Nat → Option (List SMatch)) (part : Nat × Nat)
    (st : ScanState) (q : SQuery) :
    processQuery doc np
        (fun q2 a b => (oracle q2 a b).map (List.map (fun m =>
          { m with groups := m.groups.map (List.filter (fun g => g.2.isSome)) })))
        part st q
      = processQuery doc np oracle part st q := by
  unfold processQuery
  cases ho : oracle q part.1 part.2 with
  | none => simp only [ho, Option.map_none']
  | some ms =>
    simp only [ho, Option.map_some']
    rw [List.foldl_map]
    exact foldl_congr_fun (fun st2 m2 => processMatch_filterGroups doc np q st2 m2) ms st

/-- C8.  First conjunct: a rule whose cursor construction fails (for every
range) contributes nothing — removing it from the rule list, wherever it
sits, leaves the whole scan output unchanged, so the other rules and ranges
are still processed.  Second conjunct: named groups whose recorded indices
are absent (their extraction throws) are skipped — deleting them from every
match leaves the scan output unchanged.  The scan itself is a total
function: it always returns four (possibly empty) region sets. -/
theorem static_scan_error_recovery :
    (∀ (doc : List Char) (np : Nat → Option String)
       (oracle : SQuery → Nat → Nat → Option (List SMatch))
       (qs₁ qs₂ : List SQuery) (qbad : SQuery) (visible : List (Nat × Nat)) (cache₀ : Cache),
        (∀ a b, oracle qbad a b = none) →
        staticGetDeco doc np oracle (qs₁ ++ qbad :: qs₂) visible cache₀
          = staticGetDeco doc np oracle (qs₁ ++ qs₂) visible cache₀)
    ∧ (∀ (doc : List Char) (np : Nat → Option String)
         (oracle : SQuery → Nat → Nat → Option (List SMatch))
         (queries : List SQuery) (visible : List (Nat × Nat)) (cache₀ : Cache),
        staticGetDeco doc np
          (fun q2 a b => (oracle q2 a b).map (List.map (fun m =>
            { m with groups := m.groups.map (List.filter (fun g => g.2.isSome)) })))
          queries visible cache₀
        = staticGetDeco doc np oracle queries visible cache₀) := by
  constructor
  · intro doc np oracle qs₁ qs₂ qbad visible cache₀ hbad
    unfold staticGetDeco
    have hb : staticBuildState doc np oracle (qs₁ ++ qbad :: qs₂) visible cache₀
        = staticBuildState doc np oracle (qs₁ ++ qs₂) visible cache₀ := by
      unfold staticBuildState
      refine foldl_congr_fun (fun st part => ?_) visible _
      rw [List.foldl_append, List.foldl_append, List.foldl_cons]
      congr 1
      exact processQuery_none doc np oracle part _ qbad (hbad part.1 part.2)
    rw [hb]
  · intro doc np oracle queries visible cache₀
    unfold staticGetDeco
    have hb : staticBuildState doc np
        (fun q2 a b => (oracle q2 a b).map (List.map (fun m =>
          { m with groups := m.groups.map (List.filter (fun g => g.2.isSome)) })))
        queries visible cache₀
        = staticBuildState doc np oracle queries visible cache₀ := by
      unfold staticBuildState
      exact foldl_congr_fun (fun st part =>
        foldl_congr_fun
          (fun st2 q2 => processQuery_filterGroupsOracle doc np oracle part st2 q2)
          queries st) visible _
    rw [hb]

/-- C8 witness: a regex rule whose cursor always fails to construct is
skipped while the literal rule before it is still processed. -/
theorem static_scan_error_recovery_witness :
    staticGetDeco ("aaa".toList) (fun _ => none)
        (fun q a b => if q.regex then none else some [⟨a, b, none⟩])
        [⟨"a", false, "c1", none⟩, ⟨"(", true, "bad", none⟩] [(0, 3)] []
      = staticGetDeco ("aaa".toList) (fun _ => none)
        (fun q a b => if q.regex then none else some [⟨a, b, none⟩])
        [⟨"a", false, "c1", none⟩] [(0, 3)] [] :=
  static_scan_error_recovery.1 ("aaa".toList) (fun _ => none)
    (fun q a b => if q.regex then none else some [⟨a, b, none⟩])
    [⟨"a", false, "c1", none⟩] [] ⟨"(", true, "bad", none⟩ [(0, 3)] []
    (fun _ _ => rfl)
